import Mathlib

/-!
# Verification of the zebra video tool's processing core

Shallow embedding of the exposure-analysis / zebra-overlay pipeline
(`processing.py`), the playback engine's live-stats and seek handling
(`app.py`), the export worker (`app.py`), and the CLI analyzer's CSV
output (`analyze_cli.py`).

Conventions of the embedding:
* a pixel is a BGR byte triple, a frame is a list of rows of pixels
  (the numpy `(H, W, 3)` layout);
* float arithmetic of the source is embedded as exact rational
  arithmetic (`ℚ`); conversion back to `uint8` (OpenCV's
  `saturate_cast`/`cvRound`) is embedded as clamping plus
  round-half-to-even;
* elementwise numpy array operations are embedded pixelwise.
-/

/-- A pixel of a 3-channel frame, in the BGR channel order used by the
source (`frame[..., 0]` = blue, `frame[..., 1]` = green,
`frame[..., 2]` = red). -/
structure Pixel where
  b : ℕ
  g : ℕ
  r : ℕ
deriving DecidableEq

/-- A decoded frame: a list of rows, each row a list of pixels. -/
abbrev Frame := List (List Pixel)

/-- Map over a list together with the element index, starting at a
given index.  Embeds numpy's coordinate grids (`np.indices`). -/
def idxMap {α β : Type} (f : ℕ → α → β) : ℕ → List α → List β
  | _, [] => []
  | i, a :: as => f i a :: idxMap f (i + 1) as

theorem length_idxMap {α β : Type} (f : ℕ → α → β) (i : ℕ) (l : List α) :
    (idxMap f i l).length = l.length := by
  induction l generalizing i with
  | nil => rfl
  | cons a as ih => simp [idxMap, ih]

theorem getElem?_idxMap {α β : Type} (f : ℕ → α → β) (i j : ℕ) (l : List α) :
    (idxMap f i l)[j]? = l[j]?.map (f (i + j)) := by
  induction l generalizing i j with
  | nil => simp [idxMap]
  | cons a as ih =>
    cases j with
    | zero => simp [idxMap]
    | succ j =>
      have harg : i + 1 + j = i + (j + 1) := by omega
      simp only [idxMap, List.getElem?_cons_succ]
      rw [ih (i + 1) j, harg]

theorem idxMap_congr {α β : Type} {f g : ℕ → α → β}
    (h : ∀ i a, f i a = g i a) (i : ℕ) (l : List α) :
    idxMap f i l = idxMap g i l := by
  induction l generalizing i with
  | nil => rfl
  | cons a as ih => simp [idxMap, h, ih]

/-- The pixel of a frame at row `y`, column `x`, if in bounds. -/
def pixelAt (f : Frame) (y x : ℕ) : Option Pixel :=
  f[y]?.bind fun row => row[x]?

/-- Round half to even, the rounding used by OpenCV's `cvRound`
(applied by `saturate_cast` when storing into `uint8`) and by Python's
`%.4f` float formatting. -/
def roundHalfEven (q : ℚ) : ℤ :=
  if q - Int.floor q < 1/2 then Int.floor q
  else if (1 : ℚ)/2 < q - Int.floor q then Int.floor q + 1
  else if 2 ∣ Int.floor q then Int.floor q else Int.floor q + 1

/-! ## processing.py -/

/-- `processing.to_luminance_b709` (processing.py lines 4–12): BT.709
luma of one pixel, `Y = 0.2126 R + 0.7152 G + 0.0722 B`, channels
widened from bytes to floating point (here: to `ℚ`) before weighting. -/
def to_luminance_b709 (p : Pixel) : ℚ :=
  0.2126 * (p.r : ℚ) + 0.7152 * (p.g : ℚ) + 0.0722 * (p.b : ℚ)

/-- `processing.compute_masks_from_luma` (processing.py lines 14–18):
boolean under/over masks, `under = (Y <= black)`, `over = (Y >= white)`,
elementwise over the luma array. -/
def compute_masks_from_luma (Y : List ℚ) (black white : ℤ) :
    List Bool × List Bool :=
  (Y.map fun y => decide (y ≤ (black : ℚ)),
   Y.map fun y => decide ((white : ℚ) ≤ y))

/-- `processing.frame_stats_from_luma` (processing.py lines 20–30):
`(mean luminance, % under black, % over white)` of one frame, the
percentages being `100 * mask.sum() / n` for `n = Y.size`. -/
def frame_stats_from_luma (Y : List ℚ) (black white : ℤ) : ℚ × ℚ × ℚ :=
  let n : ℚ := Y.length
  let masks := compute_masks_from_luma Y black white
  let mean_y : ℚ := Y.sum / n
  let pct_under : ℚ := 100 * (masks.1.count true : ℚ) / n
  let pct_over : ℚ := 100 * (masks.2.count true : ℚ) / n
  (mean_y, pct_under, pct_over)

/-- Stripe period of `zebra_overlay` (default argument `period: int = 14`;
every call site in the repository uses the default). -/
def zebra_period : ℕ := 14

/-- Stripe duty width of `zebra_overlay` (default argument `duty: int = 6`). -/
def zebra_duty : ℕ := 6

/-- Blend opacity of `zebra_overlay` (default argument `alpha: float = 0.55`). -/
def zebra_alpha : ℚ := 0.55

/-- `np.clip` on an integer scalar. -/
def clip (x lo hi : ℤ) : ℤ := max lo (min x hi)

/-- Threshold normalization of `zebra_overlay` (processing.py lines
42–46): `black = clip(black, 0, 254)`, `white = clip(white, 1, 255)`,
and `if black >= white: white = min(255, black + 1)`. -/
def clampThresholds (black white : ℤ) : ℤ × ℤ :=
  let black' := clip black 0 254
  let white' := clip white 1 255
  if white' ≤ black' then (black', min 255 (black' + 1)) else (black', white')

/-- Whether the over-mask is built: `mode in ('Over', 'Both')`
(processing.py line 55). -/
def over_enabled (mode : String) : Bool := mode == "Over" || mode == "Both"

/-- Whether the under-mask is built: `mode in ('Under', 'Both')`
(processing.py line 56). -/
def under_enabled (mode : String) : Bool := mode == "Under" || mode == "Both"

/-- The combined exposure mask of `zebra_overlay` at one pixel
(processing.py lines 49–59): BT.709 luma (lines 49–52 recompute the
same formula as `to_luminance_b709`) compared against the normalized
thresholds, over/under parts switched by `mode`, unioned. -/
def zebraMask (mode : String) (black white : ℤ) (p : Pixel) : Bool :=
  (over_enabled mode && decide ((white : ℚ) ≤ to_luminance_b709 p)) ||
    (under_enabled mode && decide (to_luminance_b709 p ≤ (black : ℚ)))

/-- The diagonal stripe pattern of `zebra_overlay` (processing.py
lines 62–63): pixel `(x, y)` is on-stripe iff
`(x + y + phase) % period < duty`. -/
def stripePattern (phase x y : ℕ) : Bool :=
  decide ((x + y + phase) % zebra_period < zebra_duty)

/-- The single-channel zebra image value at one pixel (processing.py
line 66): `255` on-stripe, `0` off-stripe; replicated to all three
channels (line 67). -/
def zebraValue (phase x y : ℕ) : ℕ :=
  if stripePattern phase x y then 255 else 0

/-- `cv2.addWeighted(src1, 1 - alpha, src2, alpha, 0)` on one `uint8`
channel value: the weighted sum, saturate-cast back to a byte. -/
def addWeightedU8 (alpha : ℚ) (src1 src2 : ℕ) : ℕ :=
  (max 0 (min 255 (roundHalfEven ((1 - alpha) * (src1 : ℚ) + alpha * (src2 : ℚ) + 0)))).toNat

/-- The blend of `zebra_overlay` at one pixel (processing.py line 70),
all three channels blended with the (replicated) zebra image value. -/
def blendPixel (alpha : ℚ) (p : Pixel) (z : ℕ) : Pixel :=
  ⟨addWeightedU8 alpha p.b z, addWeightedU8 alpha p.g z, addWeightedU8 alpha p.r z⟩

/-- One output pixel of `zebra_overlay` (processing.py lines 70–71):
`np.where(mask[:, :, None], blended, frame_bgr)` — the blended value
where the mask holds, the input pixel elsewhere. -/
def zebraPixel (mode : String) (black white : ℤ) (phase x y : ℕ) (p : Pixel) : Pixel :=
  if zebraMask mode black white p then blendPixel zebra_alpha p (zebraValue phase x y)
  else p

/-- `processing.zebra_overlay` (processing.py lines 32–72) at the
default style constants (`period = 14`, `duty = 6`, `alpha = 0.55`),
on an already-normalized (`uint8`, 3-channel) frame, for which
`safe_frame_bgr` (line 39) is the identity.  Thresholds are normalized
first (lines 42–46); if neither the over- nor the under-mask is
selected by `mode`, the input frame is returned unchanged (lines
57–58); otherwise each pixel is masked, striped and blended
elementwise (lines 49–71). -/
def zebra_overlay (frame : Frame) (mode : String) (black white : ℤ) (phase : ℕ) : Frame :=
  let bw := clampThresholds black white
  if !(over_enabled mode || under_enabled mode) then frame
  else
    idxMap (fun y row => idxMap (fun x p => zebraPixel mode bw.1 bw.2 phase x y p) 0 row)
      0 frame

/-! ## app.py — playback engine -/

/-- `cv2.cvtColor(frame, cv2.COLOR_BGR2GRAY)` at one pixel: OpenCV's
fixed-point BT.601 grayscale, `(R*4899 + G*9617 + B*1868 + 2^13) >> 14`
(coefficients `0.299/0.587/0.114` scaled by `2^14`, rounded by adding
half before the shift).  This is the luma the playback engine's live
stats use (app.py line 173). -/
def bgr2gray (p : Pixel) : ℕ :=
  (4899 * p.r + 9617 * p.g + 1868 * p.b + 8192) / 16384

/-- The per-frame live statistics the playback engine emits each cycle
(`VideoWorker.run`, app.py lines 172–177): mean of the grayscale
conversion, fraction of gray pixels `>= white`, fraction `<= black`
(fractions in `0..1`). -/
def engine_frame_stats (frame : Frame) (black white : ℤ) : ℚ × ℚ × ℚ :=
  let gray := frame.flatten.map bgr2gray
  let n : ℚ := gray.length
  let avgY : ℚ := ((gray.map fun v => (v : ℚ)).sum) / n
  let over_pct : ℚ := ((gray.countP fun v => decide (white ≤ (v : ℤ))) : ℚ) / n
  let under_pct : ℚ := ((gray.countP fun v => decide ((v : ℤ) ≤ black)) : ℚ) / n
  (avgY, over_pct, under_pct)

/-- The clamp applied by `VideoWorker.seek_to` (app.py lines 225–234):
`max(0, min(idx, frame_count - 1))` when `self._frame_count` is truthy
(non-zero), else `max(0, idx)`. -/
def seek_to_clamp (frame_count : ℕ) (idx : ℤ) : ℤ :=
  if frame_count ≠ 0 then max 0 (min idx ((frame_count : ℤ) - 1)) else max 0 idx

/-- The clamp applied by `VideoWorker.run` when consuming a pending
seek (app.py lines 132–139): `max(0, min(st, frame_count - 1))` when
`self._frame_count > 0`, else `max(0, st)`. -/
def run_seek_clamp (frame_count : ℕ) (idx : ℤ) : ℤ :=
  if 0 < frame_count then max 0 (min idx ((frame_count : ℤ) - 1)) else max 0 idx

/-- The capture position actually applied for a seek request: the
request is clamped by `seek_to` when queued, and the engine loop
re-clamps the queued value when consuming it. -/
def applied_seek (frame_count : ℕ) (idx : ℤ) : ℤ :=
  run_seek_clamp frame_count (seek_to_clamp frame_count idx)

/-! ## app.py — A/B loop enabling -/

/-- The control-side state touched by `MainWindow._toggle_loop`:
the A/B marks, the checkbox state, the worker's loop-enabled flag, and
the worker's current frame index. -/
structure LoopUIState where
  loop_a : Option ℤ
  loop_b : Option ℤ
  chk : Bool
  worker_enabled : Bool
  current_frame : ℤ
deriving DecidableEq

/-- Result of `MainWindow._toggle_loop`: the updated state, whether
the rejection dialog was shown, and any seek issued (the jump-to-A
when enabling past B). -/
structure LoopToggleResult where
  st : LoopUIState
  rejected : Bool
  seek : Option ℤ
deriving DecidableEq

/-- The validity test of `MainWindow._toggle_loop` (app.py line 855):
`self._loop_a is None or self._loop_b is None or self._loop_a > self._loop_b`. -/
def invalid_loop_range (a b : Option ℤ) : Bool :=
  match a, b with
  | none, _ => true
  | some _, none => true
  | some av, some bv => decide (bv < av)

/-- `MainWindow._toggle_loop` (app.py lines 853–866).  On an invalid
range the handler shows the dialog, unchecks the box and disables the
worker's loop flag, leaving the bounds untouched; otherwise it passes
`on` to `VideoWorker.enable_loop` (app.py lines 259–260) and, when
enabling while the current frame is past B, seeks to A. -/
def toggle_loop (s : LoopUIState) (onReq : Bool) : LoopToggleResult :=
  if onReq && invalid_loop_range s.loop_a s.loop_b then
    ⟨{ s with chk := false, worker_enabled := false }, true, none⟩
  else
    let s' := { s with chk := onReq, worker_enabled := onReq }
    if onReq && decide (s.loop_b.getD 0 < s.current_frame) then
      ⟨s', false, some (s.loop_a.getD 0)⟩
    else ⟨s', false, none⟩

/-! ## app.py — export worker -/

/-- The environment of one `ExportWorker.run` invocation: whether the
input capture and the output writer open, how many frames the capture
yields before end-of-stream, the reported `CAP_PROP_FRAME_COUNT`, the
iteration at whose top-of-loop check the cancellation flag is first
observed set (if any), and the output file's base name. -/
structure ExportInput where
  inputOpens : Bool
  outputOpens : Bool
  frames : ℕ
  count : ℤ
  cancelAt : Option ℕ
  outName : String

/-- Outcome of `ExportWorker.run`: the `finished` signal's `(ok, msg)`
payload, whether the output file remains on disk, the number of frames
written, and the emitted `progress` values. -/
structure ExportResult where
  ok : Bool
  msg : String
  outputFileExists : Bool
  framesWritten : ℕ
  progress : List ℤ

/-- Whether the cooperative cancellation flag is observed set at the
check of iteration `i` (the flag, once set, stays set). -/
def cancelObserved (cancelAt : Option ℕ) (i : ℕ) : Bool :=
  match cancelAt with
  | none => false
  | some c => decide (c ≤ i)

/-- The `while True` loop of `ExportWorker.run` (app.py lines 402–421):
per iteration, check the cancel flag, read (end-of-stream when the
source is exhausted), process and write one frame, and emit integer
progress `int((i * 100) / count)` whenever it changes (only when the
frame count is known positive).  Returns `(frames written, canceled,
progress values emitted)`. -/
def export_loop (cancelAt : Option ℕ) (count : ℤ) :
    ℕ → ℕ → ℤ → List ℤ → ℕ × Bool × List ℤ
  | remaining, i, last_pct, acc =>
    if cancelObserved cancelAt i then (i, true, acc.reverse)
    else
      match remaining with
      | 0 => (i, false, acc.reverse)
      | remaining' + 1 =>
        let i' := i + 1
        if 0 < count then
          let pct := ((i' : ℤ) * 100) / count
          if pct ≠ last_pct then export_loop cancelAt count remaining' i' pct (pct :: acc)
          else export_loop cancelAt count remaining' i' last_pct acc
        else export_loop cancelAt count remaining' i' last_pct acc

/-- `ExportWorker.run` (app.py lines 379–432).  Open failures of the
input capture / output writer report distinct failure messages and
leave no output; otherwise the loop runs; on cancellation the partial
output is removed (`os.remove`, line 427) and `finished(False,
"Export canceled.")` is emitted; otherwise `progress(100)` and
`finished(True, "Export complete: <name>")`. -/
def export_run (inp : ExportInput) : ExportResult :=
  if !inp.inputOpens then ⟨false, "Cannot open input video.", false, 0, []⟩
  else if !inp.outputOpens then ⟨false, "Cannot open output for writing.", false, 0, []⟩
  else
    let r := export_loop inp.cancelAt inp.count inp.frames 0 (-1) []
    if r.2.1 then ⟨false, "Export canceled.", false, r.1, r.2.2⟩
    else ⟨true, "Export complete: " ++ inp.outName, true, r.1, r.2.2 ++ [100]⟩

/-! ## analyze_cli.py -/

/-- The per-frame analysis of `analyze_cli.main` (analyze_cli.py lines
45–46): BT.709 luma of the whole frame, then
`frame_stats_from_luma`. -/
def cli_frame_stats (frame : Frame) (black white : ℤ) : ℚ × ℚ × ℚ :=
  frame_stats_from_luma (frame.flatten.map to_luminance_b709) black white

/-- The frame loop of `analyze_cli.main` (analyze_cli.py lines 37–55):
rows `(i, mean_y, pct_under, pct_over)` accumulate with `i` and
`processed` advancing together; a positive `--max-frames` cap stops
the loop once `processed >= max_frames`, a cap `<= 0` processes all
frames. -/
def analyze_go (black white max_frames : ℤ) :
    List Frame → ℕ → ℕ → List (ℕ × ℚ × ℚ × ℚ)
  | [], _, _ => []
  | f :: fs, i, processed =>
    let s := cli_frame_stats f black white
    let processed' := processed + 1
    if 0 < max_frames ∧ max_frames ≤ (processed' : ℤ) then [(i, s.1, s.2.1, s.2.2)]
    else (i, s.1, s.2.1, s.2.2) :: analyze_go black white max_frames fs (i + 1) processed'

/-- The `rows` list of `analyze_cli.main` after the frame loop, for a
source decoding to the given list of frames. -/
def analyze_rows (frames : List Frame) (black white max_frames : ℤ) :
    List (ℕ × ℚ × ℚ × ℚ) :=
  analyze_go black white max_frames frames 0 0

/-- Left-pad a number's digits with zeros to 4 places (the fractional
part of a `%.4f` rendering). -/
def pad4 (k : ℕ) : String :=
  let s := toString k
  String.mk (List.replicate (4 - s.length) '0') ++ s

/-- Python's `f"{q:.4f}"` on a nonnegative value: round `q * 10^4`
half-to-even, then print integer part, a dot, and 4 fractional
digits. -/
def fmt4core (q : ℚ) : String :=
  let n := (roundHalfEven (q * 10000)).toNat
  toString (n / 10000) ++ "." ++ pad4 (n % 10000)

/-- Python's `f"{q:.4f}"`. -/
def fmt4 (q : ℚ) : String :=
  if q < 0 then "-" ++ fmt4core (-q) else fmt4core q

/-- The CSV the CLI writes when `--csv` is supplied (analyze_cli.py
lines 91–97), as a list of rows of fields: the header row
`frame_idx, mean_Y, pct_under, pct_over`, then one row per analyzed
frame with the index and the three statistics rendered `%.4f`. -/
def csv_output (frames : List Frame) (black white max_frames : ℤ) :
    List (List String) :=
  ["frame_idx", "mean_Y", "pct_under", "pct_over"] ::
    (analyze_rows frames black white max_frames).map
      fun r => [toString r.1, fmt4 r.2.1, fmt4 r.2.2.1, fmt4 r.2.2.2]

/-! Spec-side definition used for refinement comparison. -/

/-- Modelled from the spec: the BT.709 weighting exactly as the spec
states it, `Y = 0.2126·R + 0.7152·G + 0.0722·B`, on channels already
widened to floating point (here `ℚ`), in R,G,B argument order. -/
def bt709_spec (r g b : ℚ) : ℚ := 0.2126 * r + 0.7152 * g + 0.0722 * b

/-! ## Threshold clamping lemmas -/

theorem clampThresholds_eq (black white : ℤ) :
    clampThresholds black white =
      (clip black 0 254,
       if clip white 1 255 ≤ clip black 0 254 then min 255 (clip black 0 254 + 1)
       else clip white 1 255) := by
  unfold clampThresholds
  by_cases h : clip white 1 255 ≤ clip black 0 254
  · rw [if_pos h, if_pos h]
  · rw [if_neg h, if_neg h]

theorem clampThresholds_bounds (black white : ℤ) :
    0 ≤ (clampThresholds black white).1 ∧ (clampThresholds black white).1 ≤ 254 ∧
    1 ≤ (clampThresholds black white).2 ∧ (clampThresholds black white).2 ≤ 255 ∧
    (clampThresholds black white).1 < (clampThresholds black white).2 := by
  rw [clampThresholds_eq]
  simp only [clip]
  split_ifs <;> constructor <;> omega

theorem clampThresholds_idem (black white : ℤ) :
    clampThresholds (clampThresholds black white).1 (clampThresholds black white).2 =
      clampThresholds black white := by
  obtain ⟨h1, h2, h3, h4, h5⟩ := clampThresholds_bounds black white
  rw [clampThresholds_eq (clampThresholds black white).1]
  have e1 : clip (clampThresholds black white).1 0 254 = (clampThresholds black white).1 := by
    unfold clip; omega
  have e2 : clip (clampThresholds black white).2 1 255 = (clampThresholds black white).2 := by
    unfold clip; omega
  rw [e1, e2, if_neg (by omega)]

theorem zebra_overlay_clamped (frame : Frame) (mode : String) (black white : ℤ) (phase : ℕ) :
    zebra_overlay frame mode black white phase =
      zebra_overlay frame mode (clampThresholds black white).1 (clampThresholds black white).2
        phase := by
  simp only [zebra_overlay, clampThresholds_idem]

/-- **C10.** `zebra_overlay` is total over its threshold arguments:
the thresholds are first clamped (`black` into `[0,254]`, `white` into
`[1,255]`); whenever the clamped black is at least the clamped white,
the overlay proceeds as if white were `min(255, black + 1)`, so the
internal thresholds always satisfy `black < white` and the overlay is
defined (no error path) for every integer input pair. -/
theorem c10_zebra_overlay_total (black white : ℤ) (frame : Frame) (mode : String) (phase : ℕ) :
    0 ≤ (clampThresholds black white).1 ∧ (clampThresholds black white).1 ≤ 254 ∧
    1 ≤ (clampThresholds black white).2 ∧ (clampThresholds black white).2 ≤ 255 ∧
    (clampThresholds black white).1 < (clampThresholds black white).2 ∧
    (clampThresholds black white).1 = clip black 0 254 ∧
    (clip white 1 255 ≤ clip black 0 254 →
      (clampThresholds black white).2 = min 255 (clip black 0 254 + 1)) ∧
    zebra_overlay frame mode black white phase =
      zebra_overlay frame mode (clampThresholds black white).1 (clampThresholds black white).2
        phase := by
  obtain ⟨h1, h2, h3, h4, h5⟩ := clampThresholds_bounds black white
  refine ⟨h1, h2, h3, h4, h5, by rw [clampThresholds_eq], fun h => ?_,
    zebra_overlay_clamped frame mode black white phase⟩
  rw [clampThresholds_eq]
  simp [h]

/-- Witness for C10 at `black = 300`, `white = -5` (both out of range,
in the wrong order): the degenerate-threshold rule fires. -/
theorem c10_witness :
    clip (-5) 1 255 ≤ clip 300 0 254 ∧
    (clampThresholds 300 (-5)).2 = min 255 (clip 300 0 254 + 1) ∧
    (clampThresholds 300 (-5)).1 < (clampThresholds 300 (-5)).2 :=
  ⟨by decide, (c10_zebra_overlay_total 300 (-5) [] "Both" 0).2.2.2.2.2.2.1 (by decide),
    (c10_zebra_overlay_total 300 (-5) [] "Both" 0).2.2.2.2.1⟩

/-! ## Phase periodicity -/

theorem stripePattern_add_period (phase x y : ℕ) :
    stripePattern (phase + 14) x y = stripePattern phase x y := by
  simp only [stripePattern, zebra_period, zebra_duty, decide_eq_decide]
  omega

theorem zebraPixel_add_period (mode : String) (black white : ℤ) (phase x y : ℕ) (p : Pixel) :
    zebraPixel mode black white (phase + 14) x y p = zebraPixel mode black white phase x y p := by
  unfold zebraPixel zebraValue
  rw [stripePattern_add_period]

/-- **C9.** `zebra_overlay` is phase-periodic with period 14: advancing
the phase by the stripe period yields a bit-identical output image, for
every frame, mode, thresholds and phase. -/
theorem c9_zebra_overlay_phase_periodic (frame : Frame) (mode : String) (black white : ℤ)
    (phase : ℕ) :
    zebra_overlay frame mode black white (phase + 14) =
      zebra_overlay frame mode black white phase := by
  simp only [zebra_overlay]
  cases hov : (over_enabled mode || under_enabled mode) with
  | false => simp [hov]
  | true =>
    simp only [hov, Bool.not_true, Bool.false_eq_true, if_false]
    exact idxMap_congr
      (fun y row => idxMap_congr (fun x p => zebraPixel_add_period mode _ _ phase x y p) 0 row)
      0 frame

/-! ## Seek clamping -/

/-- **C5.** The capture position applied for a seek request `idx` is
`max(0, min(idx, frame_count - 1))` when the frame count is known
(positive), else `max(0, idx)`; in particular a request beyond
`frame_count - 1` clamps to `frame_count - 1` and a negative request
clamps to 0. -/
theorem c5_seek_clamping (frame_count : ℕ) (idx : ℤ) :
    applied_seek frame_count idx =
      (if 0 < frame_count then max 0 (min idx ((frame_count : ℤ) - 1)) else max 0 idx) ∧
    (0 < frame_count → (frame_count : ℤ) - 1 < idx →
      applied_seek frame_count idx = (frame_count : ℤ) - 1) ∧
    (idx < 0 → applied_seek frame_count idx = 0) := by
  unfold applied_seek run_seek_clamp seek_to_clamp
  by_cases h : frame_count = 0
  · simp only [h]
    norm_num
    omega
  · have hpos : 0 < frame_count := Nat.pos_of_ne_zero h
    simp only [h, hpos, ne_eq, not_false_eq_true, if_true, if_pos hpos]
    refine ⟨by omega, fun _ hbig => by omega, fun hneg => by omega⟩

/-- Witness for C5: seeking to 10 in a 5-frame source lands on frame 4;
seeking to −7 in a 3-frame source lands on frame 0. -/
theorem c5_witness :
    (0 : ℕ) < 5 ∧ (5 : ℤ) - 1 < 10 ∧ applied_seek 5 10 = (5 : ℤ) - 1 ∧
    (-7 : ℤ) < 0 ∧ applied_seek 3 (-7) = 0 :=
  ⟨by decide, by decide, (c5_seek_clamping 5 10).2.1 (by decide) (by decide),
    by decide, (c5_seek_clamping 3 (-7)).2.2 (by decide)⟩

/-! ## Mask disjointness and percentage bounds -/

theorem mask_not_both (y : ℚ) (black white : ℤ) (h : black < white) :
    (decide (y ≤ (black : ℚ)) && decide ((white : ℚ) ≤ y)) = false := by
  have hc : ((black : ℚ)) < (white : ℚ) := by exact_mod_cast h
  by_cases hy : y ≤ (black : ℚ)
  · have hw : ¬ ((white : ℚ) ≤ y) := by linarith
    simp [hy, hw]
  · simp [hy]

theorem masks_and_empty (Y : List ℚ) (black white : ℤ) (h : black < white) :
    List.zipWith (fun a b => a && b) (compute_masks_from_luma Y black white).1
      (compute_masks_from_luma Y black white).2 = List.replicate Y.length false := by
  unfold compute_masks_from_luma
  induction Y with
  | nil => rfl
  | cons y ys ih =>
    simp only [List.map_cons, List.zipWith_cons_cons, List.length_cons, List.replicate_succ,
      ih, List.cons.injEq, and_true]
    exact mask_not_both y black white h

theorem counts_le (Y : List ℚ) (black white : ℤ) (h : black < white) :
    (Y.map fun y => decide (y ≤ (black : ℚ))).count true +
      (Y.map fun y => decide ((white : ℚ) ≤ y)).count true ≤ Y.length := by
  induction Y with
  | nil => simp
  | cons y ys ih =>
    simp only [List.map_cons, List.count_cons, List.length_cons]
    by_cases hy : y ≤ (black : ℚ) <;> by_cases hw : (white : ℚ) ≤ y
    · exfalso
      have hc : ((black : ℚ)) < (white : ℚ) := by exact_mod_cast h
      linarith
    · simp [hy, hw]
      omega
    · simp [hy, hw]
      omega
    · simp [hy, hw]
      omega

theorem masks_count_le (Y : List ℚ) (black white : ℤ) (h : black < white) :
    (compute_masks_from_luma Y black white).1.count true +
      (compute_masks_from_luma Y black white).2.count true ≤ Y.length := by
  simpa [compute_masks_from_luma] using counts_le Y black white h

theorem pct_sum_le (Y : List ℚ) (black white : ℤ) (h : black < white) (hY : Y ≠ []) :
    (frame_stats_from_luma Y black white).2.1 + (frame_stats_from_luma Y black white).2.2 ≤ 100 := by
  have hlen : Y.length ≠ 0 := fun h0 => hY (List.length_eq_zero.mp h0)
  have hn : (0 : ℚ) < Y.length := by positivity
  have hcnt : ((compute_masks_from_luma Y black white).1.count true : ℚ) +
      ((compute_masks_from_luma Y black white).2.count true : ℚ) ≤ (Y.length : ℚ) := by
    exact_mod_cast masks_count_le Y black white h
  unfold frame_stats_from_luma
  dsimp only
  rw [div_add_div_same, div_le_iff₀ hn]
  nlinarith [hcnt]

/-- **C4.** For every luma array and integer thresholds with
`black < white`, the under mask (`Y <= black`) and the over mask
(`Y >= white`) are disjoint — their pixelwise conjunction is the
all-false array — and consequently `pct_under + pct_over <= 100` for
every (nonempty) frame's statistics. -/
theorem c4_masks_disjoint (Y : List ℚ) (black white : ℤ) (h : black < white) :
    List.zipWith (fun a b => a && b) (compute_masks_from_luma Y black white).1
        (compute_masks_from_luma Y black white).2 = List.replicate Y.length false ∧
    (Y ≠ [] →
      (frame_stats_from_luma Y black white).2.1 +
        (frame_stats_from_luma Y black white).2.2 ≤ 100) :=
  ⟨masks_and_empty Y black white h, fun hY => pct_sum_le Y black white h hY⟩

/-- Witness for C4 on the luma array `[0, 120, 255]` with the default
thresholds 16/235. -/
theorem c4_witness :
    (16 : ℤ) < 235 ∧ ([0, 120, 255] : List ℚ) ≠ [] ∧
    List.zipWith (fun a b => a && b) (compute_masks_from_luma [0, 120, 255] 16 235).1
        (compute_masks_from_luma [0, 120, 255] 16 235).2 =
      List.replicate ([0, 120, 255] : List ℚ).length false ∧
    (frame_stats_from_luma [0, 120, 255] 16 235).2.1 +
      (frame_stats_from_luma [0, 120, 255] 16 235).2.2 ≤ 100 :=
  ⟨by decide, by decide, (c4_masks_disjoint [0, 120, 255] 16 235 (by decide)).1,
    (c4_masks_disjoint [0, 120, 255] 16 235 (by decide)).2 (by decide)⟩

/-! ## Extreme-frame means -/

theorem map_const_sum {α : Type} (l : List α) (f : α → ℚ) (c : ℚ) (h : ∀ a ∈ l, f a = c) :
    (l.map f).sum = l.length * c := by
  induction l with
  | nil => simp
  | cons x xs ih =>
    simp only [List.map_cons, List.sum_cons, List.length_cons]
    rw [h x (by simp), ih fun a ha => h a (by simp [ha])]
    push_cast
    ring

theorem cli_mean_const (f : Frame) (black white : ℤ) (c : ℚ)
    (h0 : f.flatten ≠ []) (h : ∀ p ∈ f.flatten, to_luminance_b709 p = c) :
    (cli_frame_stats f black white).1 = c := by
  have hlen : f.flatten.length ≠ 0 := fun hl => h0 (List.length_eq_zero.mp hl)
  have hn : ((f.flatten.length : ℚ)) ≠ 0 := Nat.cast_ne_zero.mpr hlen
  have hsum := map_const_sum f.flatten to_luminance_b709 c h
  unfold cli_frame_stats frame_stats_from_luma
  dsimp only
  rw [List.length_map, hsum]
  exact mul_div_cancel_left₀ c hn

/-- **C8.** The CLI analyzer's mean luma of a frame all of whose pixels
are `(255,255,255)` is exactly 255, and of a frame all of whose pixels
are `(0,0,0)` exactly 0: the BT.709 weights sum exactly to 1. -/
theorem c8_extreme_means (whiteF blackF : Frame) (black white : ℤ)
    (hw0 : whiteF.flatten ≠ []) (hb0 : blackF.flatten ≠ [])
    (hw : ∀ p ∈ whiteF.flatten, p = ⟨255, 255, 255⟩)
    (hb : ∀ p ∈ blackF.flatten, p = ⟨0, 0, 0⟩) :
    (cli_frame_stats whiteF black white).1 = 255 ∧
    (cli_frame_stats blackF black white).1 = 0 ∧
    (0.2126 + 0.7152 + 0.0722 : ℚ) = 1 := by
  have lw : to_luminance_b709 ⟨255, 255, 255⟩ = 255 := by norm_num [to_luminance_b709]
  have lb : to_luminance_b709 ⟨0, 0, 0⟩ = 0 := by norm_num [to_luminance_b709]
  exact ⟨cli_mean_const whiteF black white 255 hw0 fun p hp => by rw [hw p hp, lw],
    cli_mean_const blackF black white 0 hb0 fun p hp => by rw [hb p hp, lb],
    by norm_num⟩

/-- Witness for C8 on one-pixel all-white and all-black frames. -/
theorem c8_witness :
    (cli_frame_stats [[⟨255, 255, 255⟩]] 16 235).1 = 255 ∧
    (cli_frame_stats [[⟨0, 0, 0⟩]] 16 235).1 = 0 :=
  ⟨(c8_extreme_means [[⟨255, 255, 255⟩]] [[⟨0, 0, 0⟩]] 16 235 (by decide) (by decide)
      (by decide) (by decide)).1,
    (c8_extreme_means [[⟨255, 255, 255⟩]] [[⟨0, 0, 0⟩]] 16 235 (by decide) (by decide)
      (by decide) (by decide)).2.1⟩

/-! ## C1: which luma the statistics are derived from -/

/-- **C1 (amended).** The CLI analyzer's per-frame statistics are
derived from per-pixel BT.709 luma with channels widened to floating
point before weighting — `to_luminance_b709` computes exactly the
spec's weighting, and the CLI stats are the generic luma statistics of
that per-pixel luma.  (The playback engine's live stats are *not*
BT.709-derived; see the counterexample.) -/
theorem c1_cli_stats_bt709 (frame : Frame) (black white : ℤ) (p : Pixel) :
    to_luminance_b709 p = bt709_spec (p.r : ℚ) (p.g : ℚ) (p.b : ℚ) ∧
    cli_frame_stats frame black white =
      frame_stats_from_luma
        (frame.flatten.map fun q => bt709_spec (q.r : ℚ) (q.g : ℚ) (q.b : ℚ)) black white :=
  ⟨rfl, rfl⟩

/-- A one-pixel pure-red frame (BGR `(0, 0, 255)`). -/
def redFrame : Frame := [[⟨0, 0, 255⟩]]

/-- **C1 (counterexample).** On a pure-red frame the playback engine's
emitted mean luma is 76 (OpenCV BGR→GRAY, BT.601 fixed point), while
the BT.709 mean luma — which the CLI analyzer computes — is
`0.2126 * 255 = 54.213`.  The engine's per-frame stats are therefore
not derived from BT.709 luma, refuting the claim's "holds both" part. -/
theorem c1_counterexample :
    (engine_frame_stats redFrame 16 235).1 = 76 ∧
    (cli_frame_stats redFrame 16 235).1 = 54.213 ∧
    (engine_frame_stats redFrame 16 235).1 ≠ (cli_frame_stats redFrame 16 235).1 := by
  have he : (engine_frame_stats redFrame 16 235).1 = 76 := by
    norm_num [engine_frame_stats, redFrame, bgr2gray]
  have hc : (cli_frame_stats redFrame 16 235).1 = 54.213 := by
    norm_num [cli_frame_stats, frame_stats_from_luma, redFrame, to_luminance_b709]
  refine ⟨he, hc, ?_⟩
  rw [he, hc]
  norm_num

/-! ## C2: where the blend is applied -/

/-- **C2 (amended).** For every 3-channel frame, valid mode, integer
thresholds and phase, `zebra_overlay` treats pixel `(x, y)` as
on-stripe iff `(x + y + phase) mod 14 < 6`, and alpha-blends **every**
pixel of the exposure mask with the stripe image — `255` on-stripe
(blending toward white), `0` off-stripe (blending toward black,
darkening the pixel) — while every pixel outside the mask is returned
unmodified. -/
theorem c2_zebra_pixelwise (frame : Frame) (mode : String) (black white : ℤ) (phase y x : ℕ)
    (p : Pixel) (hmode : mode = "Over" ∨ mode = "Under" ∨ mode = "Both")
    (hp : pixelAt frame y x = some p) :
    pixelAt (zebra_overlay frame mode black white phase) y x =
      some (if zebraMask mode (clampThresholds black white).1 (clampThresholds black white).2 p
            then blendPixel zebra_alpha p (if stripePattern phase x y then 255 else 0)
            else p) ∧
    (zebraMask mode (clampThresholds black white).1 (clampThresholds black white).2 p = false →
      pixelAt (zebra_overlay frame mode black white phase) y x = some p) := by
  have hov : (over_enabled mode || under_enabled mode) = true := by
    rcases hmode with h | h | h <;> subst h <;> decide
  obtain ⟨row, hrow, hpx⟩ : ∃ row, frame[y]? = some row ∧ row[x]? = some p := by
    unfold pixelAt at hp
    cases hfy : frame[y]? with
    | none => rw [hfy] at hp; simp at hp
    | some row =>
      rw [hfy] at hp
      exact ⟨row, rfl, by simpa using hp⟩
  have hmain : pixelAt (zebra_overlay frame mode black white phase) y x =
      some (if zebraMask mode (clampThresholds black white).1 (clampThresholds black white).2 p
            then blendPixel zebra_alpha p (if stripePattern phase x y then 255 else 0)
            else p) := by
    simp only [zebra_overlay, hov, Bool.not_true]
    rw [if_neg Bool.false_ne_true]
    unfold pixelAt
    rw [getElem?_idxMap, hrow]
    simp only [Option.map_some', Option.some_bind]
    rw [getElem?_idxMap, hpx]
    simp [zebraPixel, zebraValue]
  refine ⟨hmain, fun hmask => ?_⟩
  rw [hmain, hmask]
  simp

/-- Witness for C2 (amended): an off-mask pixel passes through
unmodified. -/
theorem c2_witness :
    pixelAt ([[⟨100, 100, 100⟩]] : Frame) 0 0 = some ⟨100, 100, 100⟩ ∧
    (zebraMask "Over" (clampThresholds 16 235).1 (clampThresholds 16 235).2 ⟨100, 100, 100⟩ =
        false →
      pixelAt (zebra_overlay [[⟨100, 100, 100⟩]] "Over" 16 235 0) 0 0 =
        some ⟨100, 100, 100⟩) :=
  ⟨by decide,
    (c2_zebra_pixelwise [[⟨100, 100, 100⟩]] "Over" 16 235 0 0 0 ⟨100, 100, 100⟩
      (Or.inl rfl) (by decide)).2⟩

/-- A one-pixel all-white frame. -/
def flatWhiteFrame : Frame := [[⟨255, 255, 255⟩]]

/-- **C2 (counterexample).** At phase 6 the single pixel `(0, 0)` of an
all-white frame is in the over-mask but off-stripe
(`(0 + 0 + 6) mod 14 = 6 ≥ 6`), yet `zebra_overlay` does *not* return
it unmodified: it is blended with the black off-stripe value of the
stripe image, `round(255 * 0.45) = 115`.  This refutes the claim that
blending happens only where mask and stripe coincide (which, together
with the claim's "outside the mask unmodified", would make this pixel
keep its value 255). -/
theorem c2_counterexample :
    zebra_overlay flatWhiteFrame "Over" 16 235 6 = [[⟨115, 115, 115⟩]] ∧
    zebraMask "Over" 16 235 ⟨255, 255, 255⟩ = true ∧
    stripePattern 6 0 0 = false ∧
    (⟨115, 115, 115⟩ : Pixel) ≠ ⟨255, 255, 255⟩ := by
  have hclamp : clampThresholds 16 235 = (16, 235) := by decide
  have hmask : zebraMask "Over" 16 235 ⟨255, 255, 255⟩ = true := by
    unfold zebraMask
    have h1 : over_enabled "Over" = true := by decide
    have h2 : under_enabled "Over" = false := by decide
    rw [h1, h2]
    simp only [Bool.true_and, Bool.false_and, Bool.or_false, decide_eq_true_eq]
    norm_num [to_luminance_b709]
  have hpat : stripePattern 6 0 0 = false := by decide
  have hzval : zebraValue 6 0 0 = 0 := by decide
  have hblend : blendPixel zebra_alpha ⟨255, 255, 255⟩ 0 = ⟨115, 115, 115⟩ := by
    unfold blendPixel addWeightedU8 roundHalfEven zebra_alpha
    norm_num
    decide
  refine ⟨?_, hmask, hpat, by decide⟩
  have hov : (over_enabled "Over" || under_enabled "Over") = true := by decide
  simp only [zebra_overlay, flatWhiteFrame, hov, Bool.not_true]
  rw [if_neg Bool.false_ne_true]
  simp only [idxMap, hclamp]
  unfold zebraPixel
  rw [hmask, if_pos rfl, hzval, hblend]

/-! ## C3: export cancellation -/

theorem canceled_ne_complete (s : String) :
    "Export canceled." ≠ "Export complete: " ++ s := by
  intro h
  have hlen := congrArg String.length h
  rw [String.length_append] at hlen
  have e1 : ("Export canceled." : String).length = 16 := by decide
  have e2 : ("Export complete: " : String).length = 17 := by decide
  rw [e1, e2] at hlen
  omega

theorem export_loop_canceled (count : ℤ) (c : ℕ) :
    ∀ remaining i last_pct acc, i ≤ c → c - i ≤ remaining →
      ∃ prog, export_loop (some c) count remaining i last_pct acc = (c, true, prog) := by
  intro remaining
  induction remaining with
  | zero =>
    intro i lp acc h1 h2
    have hic : i = c := by omega
    subst hic
    exact ⟨acc.reverse, by simp [export_loop, cancelObserved]⟩
  | succ r ih =>
    intro i lp acc h1 h2
    by_cases hc : c ≤ i
    · have hic : i = c := le_antisymm h1 hc
      subst hic
      exact ⟨acc.reverse, by simp [export_loop, cancelObserved]⟩
    · have hobs : cancelObserved (some c) i = false := by
        simp only [cancelObserved, decide_eq_false_iff_not]
        omega
      simp only [export_loop, hobs, Bool.false_eq_true, if_false]
      split_ifs with hcount hpct
      · exact ih (i + 1) _ _ (by omega) (by omega)
      · exact ih (i + 1) _ _ (by omega) (by omega)
      · exact ih (i + 1) _ _ (by omega) (by omega)

/-- **C3.** If the cooperative cancellation flag is set and observed at
an in-loop check, the export loop stops right there (exactly `c` frames
written when observed at iteration `c`), the partially written output
is deleted so no output file remains, and the reported outcome is
`(False, "Export canceled.")` — distinguishable from both failure
outcomes and from the success outcome. -/
theorem c3_export_cancel (inp : ExportInput) (c : ℕ) (h1 : inp.inputOpens = true)
    (h2 : inp.outputOpens = true) (h3 : inp.cancelAt = some c) (h4 : c ≤ inp.frames) :
    (export_run inp).ok = false ∧
    (export_run inp).msg = "Export canceled." ∧
    (export_run inp).outputFileExists = false ∧
    (export_run inp).framesWritten = c ∧
    (export_run inp).msg ≠ "Cannot open input video." ∧
    (export_run inp).msg ≠ "Cannot open output for writing." ∧
    (export_run inp).msg ≠ "Export complete: " ++ inp.outName := by
  obtain ⟨prog, hloop⟩ :=
    export_loop_canceled inp.count c inp.frames 0 (-1) [] (by omega) (by omega)
  have hrun : export_run inp = ⟨false, "Export canceled.", false, c, prog⟩ := by
    simp [export_run, h1, h2, h3, hloop]
  rw [hrun]
  refine ⟨rfl, rfl, rfl, rfl, ?_, ?_, canceled_ne_complete inp.outName⟩
  · show ("Export canceled." : String) ≠ "Cannot open input video."
    decide
  · show ("Export canceled." : String) ≠ "Cannot open output for writing."
    decide

/-- Witness for C3: a 3-frame export whose cancel flag is observed at
iteration 1 writes one frame, leaves no file, and reports the canceled
message. -/
theorem c3_witness :
    (export_run ⟨true, true, 3, 3, some 1, "clip_zebra.mp4"⟩).msg = "Export canceled." ∧
    (export_run ⟨true, true, 3, 3, some 1, "clip_zebra.mp4"⟩).ok = false ∧
    (export_run ⟨true, true, 3, 3, some 1, "clip_zebra.mp4"⟩).outputFileExists = false ∧
    (export_run ⟨true, true, 3, 3, some 1, "clip_zebra.mp4"⟩).framesWritten = 1 :=
  ⟨(c3_export_cancel ⟨true, true, 3, 3, some 1, "clip_zebra.mp4"⟩ 1 rfl rfl rfl
      (by decide)).2.1,
   (c3_export_cancel ⟨true, true, 3, 3, some 1, "clip_zebra.mp4"⟩ 1 rfl rfl rfl
      (by decide)).1,
   (c3_export_cancel ⟨true, true, 3, 3, some 1, "clip_zebra.mp4"⟩ 1 rfl rfl rfl
      (by decide)).2.2.1,
   (c3_export_cancel ⟨true, true, 3, 3, some 1, "clip_zebra.mp4"⟩ 1 rfl rfl rfl
      (by decide)).2.2.2.1⟩

/-! ## C6: A/B loop enabling -/

/-- **C6.** Enabling the A/B loop when either bound is unset or when
`A > B` is rejected: the dialog is shown, the checkbox and the worker's
loop-enabled flag are left disabled, and the bounds are not coerced.
Enabling succeeds (worker flag set, no rejection) when both bounds are
set with `A <= B`. -/
theorem c6_loop_enable (s : LoopUIState) (onReq : Bool) (av bv : ℤ) :
    (onReq = true → invalid_loop_range s.loop_a s.loop_b = true →
      ((toggle_loop s onReq).st.worker_enabled = false ∧
       (toggle_loop s onReq).st.chk = false ∧
       (toggle_loop s onReq).rejected = true ∧
       (toggle_loop s onReq).st.loop_a = s.loop_a ∧
       (toggle_loop s onReq).st.loop_b = s.loop_b)) ∧
    (onReq = true → s.loop_a = some av → s.loop_b = some bv → av ≤ bv →
      ((toggle_loop s onReq).st.worker_enabled = true ∧
       (toggle_loop s onReq).rejected = false)) := by
  constructor
  · intro hon hinv
    subst hon
    unfold toggle_loop
    rw [hinv]
    exact ⟨rfl, rfl, rfl, rfl, rfl⟩
  · intro hon ha hb hab
    subst hon
    have hinv : invalid_loop_range s.loop_a s.loop_b = false := by
      rw [ha, hb]
      simp only [invalid_loop_range, decide_eq_false_iff_not]
      omega
    unfold toggle_loop
    rw [hinv]
    simp only [Bool.and_false, Bool.false_eq_true, if_false]
    split <;> exact ⟨rfl, rfl⟩

/-- Witness for C6: enabling with B unset is rejected without touching
the bounds; enabling with A = 2, B = 7 succeeds. -/
theorem c6_witness :
    ((toggle_loop ⟨some 5, none, true, false, 0⟩ true).st.worker_enabled = false ∧
     (toggle_loop ⟨some 5, none, true, false, 0⟩ true).st.chk = false ∧
     (toggle_loop ⟨some 5, none, true, false, 0⟩ true).rejected = true ∧
     (toggle_loop ⟨some 5, none, true, false, 0⟩ true).st.loop_a = some 5 ∧
     (toggle_loop ⟨some 5, none, true, false, 0⟩ true).st.loop_b = none) ∧
    ((toggle_loop ⟨some 2, some 7, false, false, 0⟩ true).st.worker_enabled = true ∧
     (toggle_loop ⟨some 2, some 7, false, false, 0⟩ true).rejected = false) :=
  ⟨(c6_loop_enable ⟨some 5, none, true, false, 0⟩ true 0 0).1 rfl (by decide),
   (c6_loop_enable ⟨some 2, some 7, false, false, 0⟩ true 2 7).2 rfl rfl rfl (by decide)⟩

/-! ## C7: CSV output of the CLI analyzer -/

theorem analyze_go_map_fst (black white max_frames : ℤ) (hmf : max_frames ≤ 0) :
    ∀ (fs : List Frame) (i processed : ℕ),
      (analyze_go black white max_frames fs i processed).map Prod.fst =
        List.range' i fs.length := by
  intro fs
  induction fs with
  | nil => intro i processed; rfl
  | cons f fs ih =>
    intro i processed
    have hcond : ¬ (0 < max_frames ∧ max_frames ≤ ((processed + 1 : ℕ) : ℤ)) := by
      intro hx
      omega
    simp only [analyze_go]
    rw [if_neg hcond]
    simp only [List.map_cons, List.length_cons, List.range'_succ]
    rw [ih (i + 1) (processed + 1)]

theorem analyze_rows_length (frames : List Frame) (black white max_frames : ℤ)
    (hmf : max_frames ≤ 0) :
    (analyze_rows frames black white max_frames).length = frames.length := by
  have h := congrArg List.length (analyze_go_map_fst black white max_frames hmf frames 0 0)
  simpa [analyze_rows] using h

theorem pct_bounds (Y : List ℚ) (black white : ℤ) (hY : Y ≠ []) :
    0 ≤ (frame_stats_from_luma Y black white).2.1 ∧
      (frame_stats_from_luma Y black white).2.1 ≤ 100 ∧
      0 ≤ (frame_stats_from_luma Y black white).2.2 ∧
      (frame_stats_from_luma Y black white).2.2 ≤ 100 := by
  have hlen : Y.length ≠ 0 := fun h0 => hY (List.length_eq_zero.mp h0)
  have hn : (0 : ℚ) < Y.length := by positivity
  have hcu : ((compute_masks_from_luma Y black white).1.count true : ℚ) ≤ (Y.length : ℚ) := by
    have h := List.count_le_length true (compute_masks_from_luma Y black white).1
    simp only [compute_masks_from_luma, List.length_map] at h
    exact_mod_cast h
  have hco : ((compute_masks_from_luma Y black white).2.count true : ℚ) ≤ (Y.length : ℚ) := by
    have h := List.count_le_length true (compute_masks_from_luma Y black white).2
    simp only [compute_masks_from_luma, List.length_map] at h
    exact_mod_cast h
  unfold frame_stats_from_luma
  dsimp only
  refine ⟨by positivity, ?_, by positivity, ?_⟩
  · rw [div_le_iff₀ hn]
    nlinarith [hcu]
  · rw [div_le_iff₀ hn]
    nlinarith [hco]

theorem analyze_go_all_bounds (black white max_frames : ℤ) :
    ∀ (fs : List Frame) (i processed : ℕ), (∀ f ∈ fs, f.flatten ≠ []) →
      ((analyze_go black white max_frames fs i processed).all
        fun r => decide (0 ≤ r.2.2.1) && decide (r.2.2.1 ≤ 100) &&
          decide (0 ≤ r.2.2.2) && decide (r.2.2.2 ≤ 100)) = true := by
  intro fs
  induction fs with
  | nil => intro i processed _; rfl
  | cons f fs ih =>
    intro i processed hne
    have hmap : f.flatten.map to_luminance_b709 ≠ [] := by
      intro h0
      exact hne f (by simp) (List.map_eq_nil_iff.mp h0)
    obtain ⟨b1, b2, b3, b4⟩ :
        0 ≤ (cli_frame_stats f black white).2.1 ∧
          (cli_frame_stats f black white).2.1 ≤ 100 ∧
          0 ≤ (cli_frame_stats f black white).2.2 ∧
          (cli_frame_stats f black white).2.2 ≤ 100 :=
      pct_bounds (f.flatten.map to_luminance_b709) black white hmap
    simp only [analyze_go]
    split_ifs with hcap
    · simp only [List.all_cons, List.all_nil, Bool.and_true]
      simp [b1, b2, b3, b4]
    · simp only [List.all_cons]
      rw [ih (i + 1) (processed + 1) fun g hg => hne g (by simp [hg])]
      simp [b1, b2, b3, b4]

/-- **C7.** With a CSV path supplied and `max_frames` unset (`<= 0`),
the CLI writes the header row `frame_idx, mean_Y, pct_under, pct_over`
first, then one row per analyzed frame whose three statistics are
rendered with 4 decimal places, with frame indices ascending from 0
with no gaps, and with both percentages within `[0, 100]`. -/
theorem c7_csv_output (frames : List Frame) (black white max_frames : ℤ)
    (hmf : max_frames ≤ 0) (hne : ∀ f ∈ frames, f.flatten ≠ []) :
    (analyze_rows frames black white max_frames).map Prod.fst = List.range frames.length ∧
    (csv_output frames black white max_frames).length = frames.length + 1 ∧
    (csv_output frames black white max_frames)[0]? =
      some ["frame_idx", "mean_Y", "pct_under", "pct_over"] ∧
    (csv_output frames black white max_frames).tail =
      (analyze_rows frames black white max_frames).map
        (fun r => [toString r.1, fmt4 r.2.1, fmt4 r.2.2.1, fmt4 r.2.2.2]) ∧
    ((analyze_rows frames black white max_frames).all
      fun r => decide (0 ≤ r.2.2.1) && decide (r.2.2.1 ≤ 100) &&
        decide (0 ≤ r.2.2.2) && decide (r.2.2.2 ≤ 100)) = true := by
  refine ⟨?_, ?_, by simp [csv_output], rfl,
    analyze_go_all_bounds black white max_frames frames 0 0 hne⟩
  · rw [analyze_rows, analyze_go_map_fst black white max_frames hmf frames 0 0,
      List.range_eq_range']
  · simp [csv_output, analyze_rows_length frames black white max_frames hmf]

/-- Witness for C7 on a two-frame source (one all-white pixel, one
all-black pixel) with the default thresholds and no frame cap. -/
theorem c7_witness :
    ((analyze_rows [[[⟨255, 255, 255⟩]], [[⟨0, 0, 0⟩]]] 16 235 0).map Prod.fst =
      List.range (([[[⟨255, 255, 255⟩]], [[⟨0, 0, 0⟩]]] : List Frame)).length) ∧
    (csv_output [[[⟨255, 255, 255⟩]], [[⟨0, 0, 0⟩]]] 16 235 0).length =
      (([[[⟨255, 255, 255⟩]], [[⟨0, 0, 0⟩]]] : List Frame)).length + 1 ∧
    (csv_output [[[⟨255, 255, 255⟩]], [[⟨0, 0, 0⟩]]] 16 235 0)[0]? =
      some ["frame_idx", "mean_Y", "pct_under", "pct_over"] :=
  ⟨(c7_csv_output [[[⟨255, 255, 255⟩]], [[⟨0, 0, 0⟩]]] 16 235 0 (by decide) (by decide)).1,
   (c7_csv_output [[[⟨255, 255, 255⟩]], [[⟨0, 0, 0⟩]]] 16 235 0 (by decide) (by decide)).2.1,
   (c7_csv_output [[[⟨255, 255, 255⟩]], [[⟨0, 0, 0⟩]]] 16 235 0 (by decide)
      (by decide)).2.2.1⟩
